import Mathlib

/-!
Verification of the batch ingestion core of elfshaker (`src/batch.rs`):
`compute_checksums` (parallel content fingerprinting) and `compress_files`
(streaming pack compression with progress checkpoints).

The Rust source is shallowly embedded:
* the filesystem is a map from paths to optional byte contents (a file that
  cannot be opened or read is `none`);
* bytes are `Nat`s, byte strings are `List Nat`;
* the SHA-1 digest from the external `crypto` crate is a parameter
  `hash : List Nat → List Nat` (the claims under verification depend only on
  *which bytes* are hashed, never on the digest algorithm itself);
* rayon's work distribution in `compute_checksums` is an explicit schedule:
  a list of index lists, one per worker; each worker threads its own
  thread-local scratch buffer through its assigned files, exactly as the
  `ThreadLocal<RefCell<Vec<u8>>>` in the source;
* the zstd encoder of `compress_files` is a `Backend` contract: each backend
  operation (`Encoder::new`, `set_parameter`, accepting written bytes,
  `finish`) either succeeds or fails with an I/O error, and a finished
  stream decodes to exactly the bytes submitted, in order;
* the `ProgressReporter` is observed as the trace of `checkpoint` calls;
* `u64` accumulation of `processed_bytes` is `Nat` arithmetic `% 2^64`.
-/

namespace Elfshaker

/-- A filesystem path (`impl AsRef<Path>` in the source). -/
abbrev Path := String

/-- The filesystem: byte content of the file at each path, or `none` when the
file cannot be opened / fully read. -/
structure Fs where
  data : Path → Option (List Nat)

/-- I/O error values (`std::io::Error`); the constructor only records which
operation produced the error. -/
inductive IoError
  | notFound      -- `File::open` failed
  | newError      -- `Encoder::new` failed
  | paramError    -- `Encoder::set_parameter` failed
  | copyError     -- `io::copy` into the encoder failed
  | finishError   -- `Encoder::finish` failed
  deriving DecidableEq, Repr

/-- Short-circuiting, order-preserving map into `Except`, the semantics of
`collect::<io::Result<Vec<_>>>()` on an ordered iterator: the first failing
element aborts the whole collection and no partial list is produced.
(When several parallel items fail, rayon does not specify *which* error is
surfaced; this model picks the leftmost one.  No claim depends on the
identity of the error value.) -/
def exceptMap (f : α → Except IoError β) : List α → Except IoError (List β)
  | [] => .ok []
  | a :: as =>
    match f a with
    | .error e => .error e
    | .ok b =>
      match exceptMap f as with
      | .error e => .error e
      | .ok bs => .ok (b :: bs)

instance {ε α : Type} [DecidableEq ε] [DecidableEq α] :
    DecidableEq (Except ε α) := fun a b =>
  match a, b with
  | .ok x, .ok y =>
    if h : x = y then isTrue (by rw [h])
    else isFalse (by intro hc; cases hc; exact h rfl)
  | .error e, .error f =>
    if h : e = f then isTrue (by rw [h])
    else isFalse (by intro hc; cases hc; exact h rfl)
  | .ok _, .error _ => isFalse (by intro hc; cases hc)
  | .error _, .ok _ => isFalse (by intro hc; cases hc)

/-- Content of the file at `p`, defaulting to `[]`; only used to *state*
properties of runs in which every file was successfully read. -/
def fileBytes (fs : Fs) (p : Path) : List Nat :=
  (fs.data p).getD []

/-! ## Checksum Engine: `compute_checksums` -/

/-- The body of the `par_iter().map(|x| ...)` closure in `compute_checksums`,
for one file: clear the worker's thread-local scratch buffer, open the file,
read it entirely into the buffer, and digest the buffer.  Returns the
checksum together with the buffer state handed to the next file processed by
the same worker. -/
def checksumOne (hash : List Nat → List Nat) (fs : Fs) (_buf0 : List Nat)
    (p : Path) : Except IoError (List Nat × List Nat) :=
  let buf := ([] : List Nat)      -- buf.clear(): capacity kept, length zeroed
  match fs.data p with
  | none => .error .notFound      -- File::open(&x)?
  | some content =>
    let buf := buf ++ content     -- file.read_to_end(&mut buf)?
    .ok (hash buf, buf)

/-- One rayon worker: processes its assigned indices in order, threading its
thread-local buffer (starting empty) through consecutive files, and records
`(original index, checksum)` pairs.  `buf0` is irrelevant to every checksum
because the closure clears the buffer first (see `runWorker_buf_irrel`). -/
def runWorker (hash : List Nat → List Nat) (fs : Fs) (paths : List Path)
    (buf0 : List Nat) : List Nat → Except IoError (List (Nat × List Nat))
  | [] => .ok []
  | i :: rest =>
    match checksumOne hash fs buf0 (paths.getD i "") with
    | .error e => .error e
    | .ok (c, buf1) =>
      match runWorker hash fs paths buf1 rest with
      | .error e => .error e
      | .ok out => .ok ((i, c) :: out)

/-- A rayon schedule: the list of index lists assigned to the workers.  It is
valid when each position of the input is processed exactly once. -/
def ScheduleValid (sched : List (List Nat)) (n : Nat) : Prop :=
  sched.flatten.Perm (List.range n)

instance (sched : List (List Nat)) (n : Nat) :
    Decidable (ScheduleValid sched n) :=
  List.decidablePerm sched.flatten (List.range n)

/-- Retrieve the checksum a worker recorded for original index `i`
(rayon's indexed collection writing each result back at its position). -/
def lookupIdx (i : Nat) : List (Nat × List Nat) → Option (List Nat)
  | [] => none
  | (j, c) :: rest => if j = i then some c else lookupIdx i rest

/-- `compute_checksums` from `src/batch.rs`, for a given work schedule: each
worker maps the closure over its slice with its own scratch buffer; the
results are collected positionally into one `Vec`, or the whole call fails
with the first I/O error.  (`collectChecksum` falls back to an error on an
index no worker produced; under `ScheduleValid` that branch is dead.) -/
def compute_checksums (hash : List Nat → List Nat) (fs : Fs)
    (sched : List (List Nat)) (paths : List Path) :
    Except IoError (List (List Nat)) :=
  match exceptMap (fun idxs => runWorker hash fs paths [] idxs) sched with
  | .error e => .error e
  | .ok parts =>
    exceptMap
      (fun i =>
        match lookupIdx i parts.flatten with
        | some c => .ok c
        | none => .error .notFound)
      (List.range paths.length)

/-! ## Pack Compressor: `compress_files` -/

/-- `zstd::stream::raw::CParameter`, restricted to the variants the source
sets. -/
inductive CParameter
  | NbWorkers : Nat → CParameter
  | EnableLongDistanceMatching : Bool → CParameter
  | WindowLog : Nat → CParameter
  deriving DecidableEq, Repr

/-- `CompressionOptions` from `src/batch.rs` (`i32` level, `u32` fields as
`Nat`). -/
structure CompressionOptions where
  level : Int
  window_log : Nat
  num_workers : Nat

/-- Contract of the external zstd streaming encoder: which calls succeed.
`writeOk c` says whether `io::copy`-ing a file with content `c` into the
encoder succeeds (a failed copy is modelled as accepting none of its bytes;
no claim observes the sink's bytes of a failed run beyond non-finalization). -/
structure Backend where
  newOk : Int → Bool
  setParamOk : CParameter → Bool
  writeOk : List Nat → Bool
  finishOk : Bool

/-- How a `compress_files` call terminates: `assert!` panic, `Err(e)`, or
`Ok(processed_bytes)`. -/
inductive Outcome
  | panic
  | ioError (e : IoError)
  | success (processed : Nat)
  deriving DecidableEq, Repr

/-- State threaded through the `for (i, obj)` loop of `compress_files`,
together with the observable traces: `processed` is the `u64`
`processed_bytes` accumulator, `checkpoints` the calls made on the
`ProgressReporter`, `opens` the files opened so far, `content` the
decompressed bytes submitted to the encoder so far. -/
structure LoopState where
  processed : Nat
  checkpoints : List (Nat × Option Nat)
  opens : List Path
  content : List Nat
  deriving DecidableEq, Repr

/-- Everything observable about one `compress_files` call. -/
structure Run where
  outcome : Outcome
  checkpoints : List (Nat × Option Nat)
  opens : List Path
  content : List Nat
  finished : Bool
  deriving DecidableEq, Repr

/-- The `for (i, obj) in object_paths.iter().enumerate()` loop of
`compress_files` (`n = object_paths.len()`): open the file, copy its bytes
into the encoder, add the copied count to `processed_bytes` (`u64`
arithmetic), and call `reporter.checkpoint(i, Some(n - i))`.  An error
carries the state so far, since checkpoints already issued and bytes already
flushed are not undone. -/
def compressLoop (be : Backend) (fs : Fs) (n : Nat) :
    Nat → List Path → LoopState → Except (IoError × LoopState) LoopState
  | _, [], st => .ok st
  | i, p :: rest, st =>
    match fs.data p with
    | none => .error (.notFound, st)              -- File::open(&obj)?
    | some bytes =>
      let st1 := { st with opens := st.opens ++ [p] }
      if be.writeOk bytes then                    -- io::copy(&mut file, &mut encoder)?
        compressLoop be fs n (i + 1) rest
          { st1 with
            content := st1.content ++ bytes,
            processed := (st1.processed + bytes.length % 2 ^ 64) % 2 ^ 64,
            checkpoints := st1.checkpoints ++ [(i, some (n - i))] }
      else .error (.copyError, st1)

/-- `compress_files` from `src/batch.rs`: assert `num_workers > 0`, create
the encoder, set `NbWorkers (num_workers - 1)`, long-distance matching and
the window log, run the file loop, issue the final
`checkpoint(object_paths.len(), Some(0))`, and `finish()` the encoder.
The sink holds a complete decodable frame (`finished = true`) only when
`finish` ran and succeeded. -/
def compress_files (be : Backend) (fs : Fs) (object_paths : List Path)
    (opts : CompressionOptions) : Run :=
  if opts.num_workers = 0 then
    -- assert!(opts.num_workers > 0): nothing was opened or written
    { outcome := .panic, checkpoints := [], opens := [], content := [],
      finished := false }
  else if ¬ be.newOk opts.level then
    { outcome := .ioError .newError, checkpoints := [], opens := [],
      content := [], finished := false }
  else if ¬ be.setParamOk (.NbWorkers (opts.num_workers - 1)) then
    { outcome := .ioError .paramError, checkpoints := [], opens := [],
      content := [], finished := false }
  else if ¬ be.setParamOk (.EnableLongDistanceMatching true) then
    { outcome := .ioError .paramError, checkpoints := [], opens := [],
      content := [], finished := false }
  else if ¬ be.setParamOk (.WindowLog opts.window_log) then
    { outcome := .ioError .paramError, checkpoints := [], opens := [],
      content := [], finished := false }
  else
    match compressLoop be fs object_paths.length 0 object_paths
        ⟨0, [], [], []⟩ with
    | .error (e, st) =>
      { outcome := .ioError e, checkpoints := st.checkpoints,
        opens := st.opens, content := st.content, finished := false }
    | .ok st =>
      -- reporter.checkpoint(object_paths.len(), Some(0)); then encoder.finish()?
      if be.finishOk then
        { outcome := .success st.processed,
          checkpoints := st.checkpoints ++ [(object_paths.length, some 0)],
          opens := st.opens, content := st.content, finished := true }
      else
        { outcome := .ioError .finishError,
          checkpoints := st.checkpoints ++ [(object_paths.length, some 0)],
          opens := st.opens, content := st.content, finished := false }

/-- Modelled from the spec: the decoding contract of the external zstd
backend (spec §3, "Pack byte stream"): a stream is decodable only once the
terminating finish step has been applied, and then decompresses to exactly
the bytes that were written into the encoder, in order. -/
def decompressPack (r : Run) : Option (List Nat) :=
  if r.finished then some r.content else none

/-- Does processing the file at `p` inside the compression loop succeed:
`File::open` and the `io::copy` into the encoder both succeed. -/
def fileOk (be : Backend) (fs : Fs) (p : Path) : Bool :=
  match fs.data p with
  | none => false
  | some c => be.writeOk c

/-- Do `Encoder::new` and the three `set_parameter` calls of
`compress_files` all succeed. -/
def paramsOk (be : Backend) (opts : CompressionOptions) : Bool :=
  be.newOk opts.level &&
  be.setParamOk (.NbWorkers (opts.num_workers - 1)) &&
  be.setParamOk (.EnableLongDistanceMatching true) &&
  be.setParamOk (.WindowLog opts.window_log)

/-- The size in bytes of the file at `p` (meaningful when the file exists). -/
def fileSize (fs : Fs) (p : Path) : Nat :=
  (fileBytes fs p).length

/-! ## Concrete fixtures used by witnesses and counterexamples -/

/-- Example filesystem: `"a"` holds 3 bytes, `"b"` holds 2, `"c"` holds 1,
everything else is unreadable. -/
def fsEx : Fs :=
  ⟨fun p =>
    if p = "a" then some [1, 2, 3]
    else if p = "b" then some [4, 5]
    else if p = "c" then some [6]
    else none⟩

/-- A second filesystem for cross-run comparisons: `"x"` holds the same
bytes `[1, 2, 3]` as `fsEx`'s `"a"`, under a different path and at a
different list position. -/
def fsEx2 : Fs :=
  ⟨fun p =>
    if p = "y" then some [9]
    else if p = "x" then some [1, 2, 3]
    else none⟩

/-- A backend whose every operation succeeds. -/
def beOk : Backend := ⟨fun _ => true, fun _ => true, fun _ => true, true⟩

/-- A backend that accepts everything except the final `finish` call. -/
def beNoFinish : Backend := ⟨fun _ => true, fun _ => true, fun _ => true, false⟩

/-- Example compression options (level 3, window 27, 4 worker threads). -/
def optsEx : CompressionOptions := ⟨3, 27, 4⟩

/-- A 20-byte stand-in digest function (the claims hold for every digest). -/
def hashEx : List Nat → List Nat :=
  fun l => List.replicate 19 0 ++ [l.sum % 256]

/-! ## Lemmas about the Checksum Engine -/

theorem exceptMap_ok_iff {f : α → Except IoError β} {l : List α}
    {bs : List β} :
    exceptMap f l = .ok bs ↔ List.Forall₂ (fun a b => f a = .ok b) l bs := by
  induction l generalizing bs with
  | nil =>
    simp [exceptMap, List.forall₂_nil_left_iff, eq_comm]
  | cons a as ih =>
    cases hfa : f a with
    | error e =>
      simp [exceptMap, hfa, List.forall₂_cons_left_iff]
    | ok b =>
      cases hrest : exceptMap f as with
      | error e =>
        simp only [exceptMap, hfa, hrest, List.forall₂_cons_left_iff]
        constructor
        · intro h; cases h
        · rintro ⟨b', l'', _, hF, rfl⟩
          exact absurd (ih.mpr hF) (by simp [hrest])
      | ok bs' =>
        simp only [exceptMap, hfa, hrest, List.forall₂_cons_left_iff]
        constructor
        · intro h
          cases h
          exact ⟨b, bs', rfl, ih.mp hrest, rfl⟩
        · rintro ⟨b', l'', hb', hF, rfl⟩
          cases hb'
          have := ih.mpr hF
          rw [hrest] at this
          cases this
          rfl

theorem forall₂_exists_right {R : α → β → Prop} {l₁ : List α} {l₂ : List β}
    (h : List.Forall₂ R l₁ l₂) : ∀ {a}, a ∈ l₁ → ∃ b ∈ l₂, R a b := by
  induction h with
  | nil => intro a ha; simp at ha
  | cons hR hF ih =>
    intro a ha
    rcases List.mem_cons.mp ha with rfl | ha
    · exact ⟨_, List.mem_cons_self _ _, hR⟩
    · rcases ih ha with ⟨b, hb, hRb⟩
      exact ⟨b, List.mem_cons_of_mem _ hb, hRb⟩

theorem forall₂_exists_left {R : α → β → Prop} {l₁ : List α} {l₂ : List β}
    (h : List.Forall₂ R l₁ l₂) : ∀ {b}, b ∈ l₂ → ∃ a ∈ l₁, R a b := by
  induction h with
  | nil => intro b hb; simp at hb
  | cons hR hF ih =>
    intro b hb
    rcases List.mem_cons.mp hb with rfl | hb
    · exact ⟨_, List.mem_cons_self _ _, hR⟩
    · rcases ih hb with ⟨a, ha, hRa⟩
      exact ⟨a, List.mem_cons_of_mem _ ha, hRa⟩

theorem exceptMap_not_ok {f : α → Except IoError β} {l : List α} {a : α}
    (ha : a ∈ l) {e : IoError} (hfa : f a = .error e) (bs : List β) :
    exceptMap f l ≠ .ok bs := by
  intro h
  rcases forall₂_exists_right (exceptMap_ok_iff.mp h) ha with ⟨b, _, hab⟩
  rw [hfa] at hab
  cases hab

theorem lookupIdx_mem :
    ∀ {l : List (Nat × List Nat)} {i : Nat} {c : List Nat},
      lookupIdx i l = some c → (i, c) ∈ l := by
  intro l
  induction l with
  | nil => intro i c h; simp [lookupIdx] at h
  | cons jd rest ih =>
    intro i c h
    obtain ⟨j, d⟩ := jd
    rw [lookupIdx] at h
    split at h
    · next hj => cases h; subst hj; exact List.mem_cons_self _ _
    · exact List.mem_cons_of_mem _ (ih h)

/-- Each checksum a worker records is the digest of the *full content* of
the file at that original index — whatever scratch buffer state the worker
had before (the closure clears the buffer first). -/
theorem runWorker_ok_mem {hash : List Nat → List Nat} {fs : Fs}
    {paths : List Path} :
    ∀ {idxs : List Nat} {buf out},
      runWorker hash fs paths buf idxs = .ok out →
      ∀ {j c}, (j, c) ∈ out →
        ∃ b, fs.data (paths.getD j "") = some b ∧ c = hash b := by
  intro idxs
  induction idxs with
  | nil =>
    intro buf out h j c hm
    rw [runWorker] at h
    cases h
    simp at hm
  | cons i rest ih =>
    intro buf out h j c hm
    rw [runWorker] at h
    split at h
    · cases h
    · rename_i ci buf1 hone
      split at h
      · cases h
      · rename_i out' hrest
        cases h
        rcases List.mem_cons.mp hm with hm | hm
        · cases hm
          simp only [checksumOne, List.nil_append] at hone
          split at hone
          · cases hone
          · rename_i content hdata
            injection hone with hpair
            injection hpair with hci hbuf
            subst hci
            exact ⟨content, hdata, rfl⟩
        · exact ih hrest hm

/-- A worker assigned an unreadable file never returns a result list. -/
theorem runWorker_not_ok {hash : List Nat → List Nat} {fs : Fs}
    {paths : List Path} :
    ∀ {idxs : List Nat} {buf} {j : Nat}, j ∈ idxs →
      fs.data (paths.getD j "") = none →
      ∀ out, runWorker hash fs paths buf idxs ≠ .ok out := by
  intro idxs
  induction idxs with
  | nil => intro buf j hj; simp at hj
  | cons i rest ih =>
    intro buf j hj hmiss out h
    rw [runWorker] at h
    rcases List.mem_cons.mp hj with rfl | hj
    · split at h
      · cases h
      · rename_i ci buf1 hone
        simp only [checksumOne, List.nil_append] at hone
        split at hone
        · cases hone
        · rename_i content hdata
          rw [hmiss] at hdata
          cases hdata
    · split at h
      · cases h
      · rename_i ci buf1 hone
        split at h
        · cases h
        · rename_i out' hrest
          exact ih hj hmiss out' hrest

/-- Success characterization of the Checksum Engine: whatever the schedule,
an `Ok` result has one entry per input path, and the entry at position `i`
is the digest of the content of the file at input position `i`. -/
theorem compute_checksums_ok_get {hash : List Nat → List Nat} {fs : Fs}
    {sched : List (List Nat)} {paths : List Path} {cs : List (List Nat)}
    (h : compute_checksums hash fs sched paths = .ok cs) :
    cs.length = paths.length ∧
    ∀ i, i < paths.length →
      ∃ b, fs.data (paths.getD i "") = some b ∧ cs.getD i [] = hash b := by
  rw [compute_checksums] at h
  cases hw : exceptMap (fun idxs => runWorker hash fs paths [] idxs) sched with
  | error e => rw [hw] at h; cases h
  | ok parts =>
    rw [hw] at h
    rcases List.forall₂_iff_get.mp (exceptMap_ok_iff.mp h) with ⟨hlen, hget⟩
    rw [List.length_range] at hlen
    refine ⟨hlen.symm, ?_⟩
    intro i hi
    have hi' : i < (List.range paths.length).length := by simpa using hi
    have hgi := hget i hi' (by omega)
    rw [List.get_eq_getElem, List.getElem_range] at hgi
    cases hlook : lookupIdx i parts.flatten with
    | none => rw [hlook] at hgi; cases hgi
    | some c =>
      rw [hlook] at hgi
      cases hgi
      rcases List.mem_flatten.mp (lookupIdx_mem hlook) with ⟨part, hpart, hin⟩
      rcases forall₂_exists_left (exceptMap_ok_iff.mp hw) hpart with
        ⟨idxs, _, hok⟩
      rcases runWorker_ok_mem hok hin with ⟨b, hb, hcb⟩
      refine ⟨b, hb, ?_⟩
      rw [List.getD_eq_getElem cs [] (by omega)]
      simpa using hcb

/-- A missing/unreadable file anywhere in a validly-scheduled input makes
the Checksum Engine fail as a whole. -/
theorem compute_checksums_error {hash : List Nat → List Nat} {fs : Fs}
    {sched : List (List Nat)} {paths : List Path}
    (hv : ScheduleValid sched paths.length) {i : Nat} (hi : i < paths.length)
    (hmiss : fs.data (paths.getD i "") = none) :
    ∃ e, compute_checksums hash fs sched paths = .error e := by
  have hmem : i ∈ sched.flatten := hv.mem_iff.mpr (List.mem_range.mpr hi)
  rcases List.mem_flatten.mp hmem with ⟨idxs, hidxs, hiin⟩
  cases hw : exceptMap (fun idxs => runWorker hash fs paths [] idxs) sched with
  | error e => exact ⟨e, by rw [compute_checksums, hw]⟩
  | ok parts =>
    exfalso
    rcases forall₂_exists_right (exceptMap_ok_iff.mp hw) hidxs with
      ⟨part, _, hok⟩
    exact runWorker_not_ok hiin hmiss part hok

/-! ## Lemmas about the Pack Compressor -/

/-- `u64` accumulation: folding `processed_bytes += bytes` over a list is
the sum of the list modulo `2 ^ 64`. -/
theorem foldl_u64_add :
    ∀ (l : List Nat) (a : Nat), a < 2 ^ 64 →
      l.foldl (fun acc x => (acc + x % 2 ^ 64) % 2 ^ 64) a =
        (a + l.sum) % 2 ^ 64 := by
  intro l
  induction l with
  | nil =>
    intro a ha
    simp only [List.foldl_nil, List.sum_nil, Nat.add_zero,
      Nat.mod_eq_of_lt ha]
  | cons x l ih =>
    intro a ha
    simp only [List.foldl_cons, List.sum_cons]
    rw [ih _ (Nat.mod_lt _ (by positivity))]
    have h1 : (a + x % 2 ^ 64) % 2 ^ 64 + l.sum ≡ a + x + l.sum
        [MOD 2 ^ 64] :=
      Nat.ModEq.add_right _
        ((Nat.mod_modEq _ _).trans (Nat.ModEq.add_left a (Nat.mod_modEq x _)))
    rw [← Nat.add_assoc]
    exact h1

/-- When every remaining file opens and writes cleanly, the compression
loop succeeds and its final state is explicit: sizes accumulated mod
`2 ^ 64`, one checkpoint `(j, n - j)` per file, every file opened, and all
contents submitted to the encoder in order. -/
theorem compressLoop_ok_of_allOk {be : Backend} {fs : Fs} {n : Nat} :
    ∀ (rest : List Path) (i : Nat) (st : LoopState),
      (∀ p ∈ rest, fileOk be fs p = true) →
      compressLoop be fs n i rest st = .ok
        { processed := rest.foldl
            (fun a p => (a + fileSize fs p % 2 ^ 64) % 2 ^ 64) st.processed,
          checkpoints := st.checkpoints ++
            (List.range' i rest.length).map (fun j => (j, some (n - j))),
          opens := st.opens ++ rest,
          content := st.content ++ (rest.map (fileBytes fs)).flatten } := by
  intro rest
  induction rest with
  | nil => intro i st _; simp [compressLoop]
  | cons p rest ih =>
    intro i st hok
    have hp := hok p (List.mem_cons_self _ _)
    cases hdata : fs.data p with
    | none => simp [fileOk, hdata] at hp
    | some bytes =>
      simp only [fileOk, hdata] at hp
      rw [compressLoop]
      simp only [hdata]
      rw [if_pos hp]
      rw [ih (i + 1) _ (fun q hq => hok q (List.mem_cons_of_mem _ hq))]
      simp [fileSize, fileBytes, hdata, List.append_assoc,
        List.range'_succ i rest.length 1]

/-- Conversely, a successful compression loop run means every remaining
file opened and wrote cleanly. -/
theorem compressLoop_ok_allOk {be : Backend} {fs : Fs} {n : Nat} :
    ∀ {rest : List Path} {i : Nat} {st st' : LoopState},
      compressLoop be fs n i rest st = .ok st' →
      ∀ p ∈ rest, fileOk be fs p = true := by
  intro rest
  induction rest with
  | nil => intro i st st' _ p hp; simp at hp
  | cons q rest ih =>
    intro i st st' h p hp
    rw [compressLoop] at h
    split at h
    · cases h
    · rename_i bytes hdata
      split at h
      · rename_i hwr
        rcases List.mem_cons.mp hp with rfl | hp
        · rw [fileOk, hdata]; exact hwr
        · exact ih h p hp
      · cases h

/-- Accumulating file sizes with the `u64` accumulator, starting from 0,
gives the total size modulo `2 ^ 64`. -/
theorem foldl_fileSize (fs : Fs) (paths : List Path) :
    paths.foldl (fun a p => (a + fileSize fs p % 2 ^ 64) % 2 ^ 64) 0 =
      (paths.map (fileSize fs)).sum % 2 ^ 64 := by
  rw [← List.foldl_map (fileSize fs)
    (fun acc x => (acc + x % 2 ^ 64) % 2 ^ 64) paths 0]
  rw [foldl_u64_add _ 0 (by positivity), Nat.zero_add]

/-- Shape of a fully successful `compress_files` call. -/
theorem compress_files_eq_of_ok {be : Backend} {fs : Fs} {paths : List Path}
    {opts : CompressionOptions} (hw : 0 < opts.num_workers)
    (hparams : paramsOk be opts = true)
    (hfiles : ∀ p ∈ paths, fileOk be fs p = true)
    (hfin : be.finishOk = true) :
    compress_files be fs paths opts =
      { outcome := .success ((paths.map (fileSize fs)).sum % 2 ^ 64),
        checkpoints := (List.range paths.length).map
            (fun i => (i, some (paths.length - i))) ++
          [(paths.length, some 0)],
        opens := paths,
        content := (paths.map (fileBytes fs)).flatten,
        finished := true } := by
  obtain ⟨h1, h2, h3, h4⟩ :
      be.newOk opts.level = true ∧
      be.setParamOk (.NbWorkers (opts.num_workers - 1)) = true ∧
      be.setParamOk (.EnableLongDistanceMatching true) = true ∧
      be.setParamOk (.WindowLog opts.window_log) = true := by
    simpa [paramsOk, Bool.and_eq_true, and_assoc] using hparams
  rw [compress_files, if_neg (by omega), if_neg (not_not_intro h1),
    if_neg (not_not_intro h2), if_neg (not_not_intro h3),
    if_neg (not_not_intro h4),
    compressLoop_ok_of_allOk paths 0 ⟨0, [], [], []⟩ hfiles]
  simp only [foldl_fileSize]
  simp [hfin, List.range_eq_range']

/-- Shape of a `compress_files` call in which everything succeeds except
the final `encoder.finish()`. -/
theorem compress_files_eq_of_noFinish {be : Backend} {fs : Fs}
    {paths : List Path} {opts : CompressionOptions}
    (hw : 0 < opts.num_workers) (hparams : paramsOk be opts = true)
    (hfiles : ∀ p ∈ paths, fileOk be fs p = true)
    (hfin : be.finishOk = false) :
    compress_files be fs paths opts =
      { outcome := .ioError .finishError,
        checkpoints := (List.range paths.length).map
            (fun i => (i, some (paths.length - i))) ++
          [(paths.length, some 0)],
        opens := paths,
        content := (paths.map (fileBytes fs)).flatten,
        finished := false } := by
  obtain ⟨h1, h2, h3, h4⟩ :
      be.newOk opts.level = true ∧
      be.setParamOk (.NbWorkers (opts.num_workers - 1)) = true ∧
      be.setParamOk (.EnableLongDistanceMatching true) = true ∧
      be.setParamOk (.WindowLog opts.window_log) = true := by
    simpa [paramsOk, Bool.and_eq_true, and_assoc] using hparams
  rw [compress_files, if_neg (by omega), if_neg (not_not_intro h1),
    if_neg (not_not_intro h2), if_neg (not_not_intro h3),
    if_neg (not_not_intro h4),
    compressLoop_ok_of_allOk paths 0 ⟨0, [], [], []⟩ hfiles]
  simp [hfin, List.range_eq_range']

/-- If a `set_parameter` call is rejected or any file fails to open or to
copy into the encoder, `compress_files` fails with an I/O error and the
encoder is never finalized. -/
theorem compress_files_error_of_bad {be : Backend} {fs : Fs}
    {paths : List Path} {opts : CompressionOptions}
    (hw : 0 < opts.num_workers)
    (hbad : ¬ (be.setParamOk (.NbWorkers (opts.num_workers - 1)) = true ∧
               be.setParamOk (.EnableLongDistanceMatching true) = true ∧
               be.setParamOk (.WindowLog opts.window_log) = true ∧
               ∀ p ∈ paths, fileOk be fs p = true)) :
    (∃ e, (compress_files be fs paths opts).outcome = .ioError e) ∧
    (compress_files be fs paths opts).finished = false := by
  rw [compress_files, if_neg (by omega)]
  by_cases h1 : be.newOk opts.level = true
  case neg => rw [if_pos h1]; exact ⟨⟨.newError, rfl⟩, rfl⟩
  rw [if_neg (not_not_intro h1)]
  by_cases h2 : be.setParamOk (.NbWorkers (opts.num_workers - 1)) = true
  case neg => rw [if_pos h2]; exact ⟨⟨.paramError, rfl⟩, rfl⟩
  rw [if_neg (not_not_intro h2)]
  by_cases h3 : be.setParamOk (.EnableLongDistanceMatching true) = true
  case neg => rw [if_pos h3]; exact ⟨⟨.paramError, rfl⟩, rfl⟩
  rw [if_neg (not_not_intro h3)]
  by_cases h4 : be.setParamOk (.WindowLog opts.window_log) = true
  case neg => rw [if_pos h4]; exact ⟨⟨.paramError, rfl⟩, rfl⟩
  rw [if_neg (not_not_intro h4)]
  have hfile : ¬ ∀ p ∈ paths, fileOk be fs p = true :=
    fun hall => hbad ⟨h2, h3, h4, hall⟩
  cases hloop : compressLoop be fs paths.length 0 paths ⟨0, [], [], []⟩ with
  | error est =>
    obtain ⟨e, st⟩ := est
    exact ⟨⟨e, rfl⟩, rfl⟩
  | ok st =>
    exact absurd (fun p hp => compressLoop_ok_allOk hloop p hp) hfile

/-- A successful `compress_files` call implies the assert passed, every
backend configuration call succeeded, every file opened and copied
cleanly, and `finish` succeeded. -/
theorem compress_files_success_inv {be : Backend} {fs : Fs}
    {paths : List Path} {opts : CompressionOptions} {k : Nat}
    (h : (compress_files be fs paths opts).outcome = .success k) :
    0 < opts.num_workers ∧ paramsOk be opts = true ∧
    (∀ p ∈ paths, fileOk be fs p = true) ∧ be.finishOk = true := by
  by_cases h0 : opts.num_workers = 0
  · rw [compress_files, if_pos h0] at h; cases h
  rw [compress_files, if_neg h0] at h
  by_cases h1 : be.newOk opts.level = true
  case neg => rw [if_pos h1] at h; cases h
  rw [if_neg (not_not_intro h1)] at h
  by_cases h2 : be.setParamOk (.NbWorkers (opts.num_workers - 1)) = true
  case neg => rw [if_pos h2] at h; cases h
  rw [if_neg (not_not_intro h2)] at h
  by_cases h3 : be.setParamOk (.EnableLongDistanceMatching true) = true
  case neg => rw [if_pos h3] at h; cases h
  rw [if_neg (not_not_intro h3)] at h
  by_cases h4 : be.setParamOk (.WindowLog opts.window_log) = true
  case neg => rw [if_pos h4] at h; cases h
  rw [if_neg (not_not_intro h4)] at h
  cases hloop : compressLoop be fs paths.length 0 paths ⟨0, [], [], []⟩ with
  | error est =>
    obtain ⟨e, st⟩ := est
    simp only [hloop] at h
    cases h
  | ok st =>
    simp only [hloop] at h
    by_cases hf : be.finishOk = true
    · exact ⟨Nat.pos_of_ne_zero h0, by simp [paramsOk, h1, h2, h3, h4],
        fun p hp => compressLoop_ok_allOk hloop p hp, hf⟩
    · rw [if_neg hf] at h; cases h

/-! ## The claims -/

/-- C1, counterexample: on the single-file input `["a"]` (3 bytes, all
backend calls succeed) the run succeeds, and the checkpoint issued after
the only file reports `Some 1` as the remaining count — not `Some 0`, the
count of files actually still remaining once that file is completed — so
the trace differs from the `[(0, some 0), (1, some 0)]` the claim
predicts. -/
theorem c1_remaining_count_counterexample :
    (compress_files beOk fsEx ["a"] optsEx).outcome = .success 3 ∧
    (compress_files beOk fsEx ["a"] optsEx).checkpoints =
      [(0, some 1), (1, some 0)] ∧
    (compress_files beOk fsEx ["a"] optsEx).checkpoints ≠
      [(0, some 0), (1, some 0)] := by
  decide

/-- C1 (amended): on every successful run over a non-empty list of `n`
paths, the Progress Sink sees exactly one checkpoint per file — the one
after file `i` reporting `(i, Some (n - i))`: the zero-based index of the
file just completed together with the count of files that had still been
remaining when that file was started, i.e. one more than the count still
remaining on completion — with strictly increasing completed-indices and
strictly decreasing remaining-counts, followed by exactly one final
checkpoint `(n, Some 0)`. -/
theorem c1_checkpoint_trace {be : Backend} {fs : Fs} {paths : List Path}
    {opts : CompressionOptions} {k : Nat} (hne : paths ≠ [])
    (h : (compress_files be fs paths opts).outcome = .success k) :
    (compress_files be fs paths opts).checkpoints =
      (List.range paths.length).map
        (fun i => (i, some (paths.length - i))) ++
      [(paths.length, some 0)] ∧
    ((compress_files be fs paths opts).checkpoints.map
      Prod.fst).Pairwise (· < ·) ∧
    ((compress_files be fs paths opts).checkpoints.map
      (fun c => c.2.getD 0)).Pairwise (· > ·) := by
  have hne' := hne
  clear hne'
  obtain ⟨hw, hparams, hfiles, hfin⟩ := compress_files_success_inv h
  rw [compress_files_eq_of_ok hw hparams hfiles hfin]
  refine ⟨rfl, ?_, ?_⟩
  · have hfst : (((List.range paths.length).map
        (fun i => (i, some (paths.length - i))) ++
        [(paths.length, some 0)]).map Prod.fst) =
        List.range (paths.length + 1) := by
      rw [List.range_succ]
      simp only [List.map_append, List.map_map, List.map_cons, List.map_nil]
      rw [show (Prod.fst ∘ fun i : Nat => (i, some (paths.length - i))) =
        fun i : Nat => i from rfl]
      simp
    rw [hfst]
    exact List.pairwise_lt_range _
  · have hsnd : (((List.range paths.length).map
        (fun i => (i, some (paths.length - i))) ++
        [(paths.length, some 0)]).map
          (fun c : Nat × Option Nat => c.2.getD 0)) =
        (List.range (paths.length + 1)).map
          (fun i => paths.length - i) := by
      rw [List.range_succ]
      simp only [List.map_append, List.map_map, List.map_cons, List.map_nil]
      rw [show ((fun c : Nat × Option Nat => c.2.getD 0) ∘
        fun i : Nat => (i, some (paths.length - i))) =
        fun i : Nat => paths.length - i from rfl]
      simp
    rw [hsnd, List.pairwise_map]
    refine (List.pairwise_lt_range _).imp_of_mem ?_
    intro a b ha hb hab
    rw [List.mem_range] at ha hb
    omega

/-- Witness for C1's theorem at the concrete two-file input `["a", "b"]`. -/
theorem c1_checkpoint_trace_witness :
    (compress_files beOk fsEx ["a", "b"] optsEx).checkpoints =
      (List.range (["a", "b"] : List Path).length).map
        (fun i => (i, some ((["a", "b"] : List Path).length - i))) ++
      [((["a", "b"] : List Path).length, some 0)] ∧
    ((compress_files beOk fsEx ["a", "b"] optsEx).checkpoints.map
      Prod.fst).Pairwise (· < ·) ∧
    ((compress_files beOk fsEx ["a", "b"] optsEx).checkpoints.map
      (fun c => c.2.getD 0)).Pairwise (· > ·) :=
  c1_checkpoint_trace (by decide)
    (by decide :
      (compress_files beOk fsEx ["a", "b"] optsEx).outcome = .success 5)

/-- C2: on every input list on which `compress_files` succeeds, the pack
stream is finalized and decompresses to exactly the byte-for-byte
concatenation of the input files' contents, in input-list order (and every
input file was indeed readable, with `fileBytes` its content). -/
theorem c2_roundtrip {be : Backend} {fs : Fs} {paths : List Path}
    {opts : CompressionOptions} {k : Nat}
    (h : (compress_files be fs paths opts).outcome = .success k) :
    decompressPack (compress_files be fs paths opts) =
      some ((paths.map (fileBytes fs)).flatten) ∧
    ∀ p ∈ paths, fs.data p = some (fileBytes fs p) := by
  obtain ⟨hw, hparams, hfiles, hfin⟩ := compress_files_success_inv h
  rw [compress_files_eq_of_ok hw hparams hfiles hfin]
  refine ⟨rfl, ?_⟩
  intro p hp
  have hfp := hfiles p hp
  cases hd : fs.data p with
  | none => simp [fileOk, hd] at hfp
  | some c => simp [fileBytes, hd]

/-- Witness for C2 at the concrete input `["a", "b"]`: the finalized pack
decodes to `[1, 2, 3] ++ [4, 5]`. -/
theorem c2_roundtrip_witness :
    decompressPack (compress_files beOk fsEx ["a", "b"] optsEx) =
      some (((["a", "b"] : List Path).map (fileBytes fsEx)).flatten) ∧
    ∀ p ∈ (["a", "b"] : List Path), fsEx.data p = some (fileBytes fsEx p) :=
  c2_roundtrip
    (by decide :
      (compress_files beOk fsEx ["a", "b"] optsEx).outcome = .success 5)

/-- C3: on success the returned value is the sum of the input files' sizes
(accumulated in the `u64` `processed_bytes`, hence modulo `2 ^ 64`, which
equals the exact sum whenever the total fits in a `u64` — always the case
for real files), and it equals the total decompressed byte count of the
stream. -/
theorem c3_processed_bytes {be : Backend} {fs : Fs} {paths : List Path}
    {opts : CompressionOptions} {k : Nat}
    (h : (compress_files be fs paths opts).outcome = .success k) :
    k = (paths.map (fileSize fs)).sum % 2 ^ 64 ∧
    k = (compress_files be fs paths opts).content.length % 2 ^ 64 ∧
    ((paths.map (fileSize fs)).sum < 2 ^ 64 →
      k = (paths.map (fileSize fs)).sum) := by
  obtain ⟨hw, hparams, hfiles, hfin⟩ := compress_files_success_inv h
  rw [compress_files_eq_of_ok hw hparams hfiles hfin] at h ⊢
  simp only [Outcome.success.injEq] at h
  subst h
  refine ⟨rfl, ?_, fun hlt => Nat.mod_eq_of_lt hlt⟩
  simp only [List.length_flatten, List.map_map]
  rw [show List.length ∘ fileBytes fs = fileSize fs from rfl]

/-- Witness for C3 at the concrete input `["a", "b"]` (sizes 3 and 2). -/
theorem c3_processed_bytes_witness :
    (5 : Nat) = ((["a", "b"] : List Path).map (fileSize fsEx)).sum % 2 ^ 64 ∧
    (5 : Nat) =
      (compress_files beOk fsEx ["a", "b"] optsEx).content.length % 2 ^ 64 ∧
    (((["a", "b"] : List Path).map (fileSize fsEx)).sum < 2 ^ 64 →
      (5 : Nat) = ((["a", "b"] : List Path).map (fileSize fsEx)).sum) :=
  c3_processed_bytes
    (by decide :
      (compress_files beOk fsEx ["a", "b"] optsEx).outcome = .success 5)

/-- C4: whether or not the schedule distributes work evenly, and whatever
completion order the workers exhibit, a successful `compute_checksums`
call returns exactly one checksum per input path, and the checksum at
position `i` is the 20-byte digest of the content of the file at input
position `i`. -/
theorem c4_checksums_positional {hash : List Nat → List Nat} {fs : Fs}
    {sched : List (List Nat)} {paths : List Path} {cs : List (List Nat)}
    (h20 : ∀ b, (hash b).length = 20)
    (h : compute_checksums hash fs sched paths = .ok cs) :
    cs.length = paths.length ∧
    ∀ i, i < paths.length →
      ∃ b, fs.data (paths.getD i "") = some b ∧
        cs.getD i [] = hash b ∧ (cs.getD i []).length = 20 := by
  obtain ⟨hlen, hch⟩ := compute_checksums_ok_get h
  refine ⟨hlen, fun i hi => ?_⟩
  obtain ⟨b, hb, hc⟩ := hch i hi
  exact ⟨b, hb, hc, by rw [hc, h20]⟩

/-- Witness for C4: two workers processing the two files in swapped order
still produce the checksums in input order. -/
theorem c4_checksums_positional_witness :
    ([List.replicate 19 0 ++ [6], List.replicate 19 0 ++ [9]] :
        List (List Nat)).length = (["a", "b"] : List Path).length ∧
    ∀ i, i < (["a", "b"] : List Path).length →
      ∃ b, fsEx.data ((["a", "b"] : List Path).getD i "") = some b ∧
        ([List.replicate 19 0 ++ [6], List.replicate 19 0 ++ [9]] :
          List (List Nat)).getD i [] = hashEx b ∧
        (([List.replicate 19 0 ++ [6], List.replicate 19 0 ++ [9]] :
          List (List Nat)).getD i []).length = 20 :=
  c4_checksums_positional (fun b => by simp [hashEx])
    (by decide :
      compute_checksums hashEx fsEx [[1], [0]] ["a", "b"] =
        .ok [List.replicate 19 0 ++ [6], List.replicate 19 0 ++ [9]])

/-- C6: with any valid schedule, if some input file cannot be opened or
read, `compute_checksums` fails with an I/O error and returns no checksum
list at all — in particular no partial list for the files that did
succeed. -/
theorem c6_no_partial_checksums {hash : List Nat → List Nat} {fs : Fs}
    {sched : List (List Nat)} {paths : List Path} {i : Nat}
    (hv : ScheduleValid sched paths.length) (hi : i < paths.length)
    (hmiss : fs.data (paths.getD i "") = none) :
    (∀ cs, compute_checksums hash fs sched paths ≠ .ok cs) ∧
    ∃ e, compute_checksums hash fs sched paths = .error e := by
  obtain ⟨e, he⟩ := compute_checksums_error hv hi hmiss
  refine ⟨fun cs hok => ?_, ⟨e, he⟩⟩
  rw [he] at hok
  cases hok

/-- Witness for C6: the second path names a missing file, and the whole
call errors. -/
theorem c6_no_partial_checksums_witness :
    (∀ cs, compute_checksums hashEx fsEx [[1], [0]] ["a", "zzz"] ≠
      .ok cs) ∧
    ∃ e, compute_checksums hashEx fsEx [[1], [0]] ["a", "zzz"] =
      .error e :=
  c6_no_partial_checksums (by decide) (by decide)
    (by decide : fsEx.data ((["a", "zzz"] : List Path).getD 1 "") = none)

/-- C7: the checksum assigned to a file depends only on its byte content:
across two runs — possibly over different filesystems, different path
lists, different positions and different worker schedules — two files
holding identical bytes receive identical checksums. -/
theorem c7_checksum_content_pure {hash : List Nat → List Nat}
    {fs1 fs2 : Fs} {sched1 sched2 : List (List Nat)}
    {paths1 paths2 : List Path} {cs1 cs2 : List (List Nat)}
    (h1 : compute_checksums hash fs1 sched1 paths1 = .ok cs1)
    (h2 : compute_checksums hash fs2 sched2 paths2 = .ok cs2)
    {i j : Nat} (hi : i < paths1.length) (hj : j < paths2.length)
    {b : List Nat}
    (hb1 : fs1.data (paths1.getD i "") = some b)
    (hb2 : fs2.data (paths2.getD j "") = some b) :
    cs1.getD i [] = cs2.getD j [] := by
  obtain ⟨-, hch1⟩ := compute_checksums_ok_get h1
  obtain ⟨-, hch2⟩ := compute_checksums_ok_get h2
  obtain ⟨b1, hb1', hc1⟩ := hch1 i hi
  obtain ⟨b2, hb2', hc2⟩ := hch2 j hj
  rw [hb1] at hb1'
  rw [hb2] at hb2'
  cases hb1'
  cases hb2'
  rw [hc1, hc2]

/-- Witness for C7: `fsEx`'s `"a"` (position 0) and `fsEx2`'s `"x"`
(position 1) hold the same bytes `[1, 2, 3]` and receive the same
checksum, under different schedules. -/
theorem c7_checksum_content_pure_witness :
    ([List.replicate 19 0 ++ [6], List.replicate 19 0 ++ [9]] :
      List (List Nat)).getD 0 [] =
    ([List.replicate 19 0 ++ [9], List.replicate 19 0 ++ [6]] :
      List (List Nat)).getD 1 [] :=
  c7_checksum_content_pure
    (by decide :
      compute_checksums hashEx fsEx [[1], [0]] ["a", "b"] =
        .ok [List.replicate 19 0 ++ [6], List.replicate 19 0 ++ [9]])
    (by decide :
      compute_checksums hashEx fsEx2 [[0, 1]] ["y", "x"] =
        .ok [List.replicate 19 0 ++ [9], List.replicate 19 0 ++ [6]])
    (by decide : (0 : Nat) < (["a", "b"] : List Path).length)
    (by decide : (1 : Nat) < (["y", "x"] : List Path).length)
    (by decide :
      fsEx.data ((["a", "b"] : List Path).getD 0 "") = some [1, 2, 3])
    (by decide :
      fsEx2.data ((["y", "x"] : List Path).getD 1 "") = some [1, 2, 3])

/-- C5: if a `set_parameter` call fails, or any file fails to open/read or
to be copied into the encoder, `compress_files` returns an I/O error, no
byte count, and the encoder is never finalized — the bytes already flushed
to the sink do not form a complete, decodable frame. -/
theorem c5_error_abandons_stream {be : Backend} {fs : Fs}
    {paths : List Path} {opts : CompressionOptions}
    (hw : 0 < opts.num_workers)
    (hbad : ¬ (be.setParamOk (.NbWorkers (opts.num_workers - 1)) = true ∧
               be.setParamOk (.EnableLongDistanceMatching true) = true ∧
               be.setParamOk (.WindowLog opts.window_log) = true ∧
               ∀ p ∈ paths, fileOk be fs p = true)) :
    (∃ e, (compress_files be fs paths opts).outcome = .ioError e) ∧
    (∀ k, (compress_files be fs paths opts).outcome ≠ .success k) ∧
    (compress_files be fs paths opts).finished = false ∧
    decompressPack (compress_files be fs paths opts) = none := by
  obtain ⟨⟨e, he⟩, hf⟩ := compress_files_error_of_bad hw hbad
  refine ⟨⟨e, he⟩, fun k hk => ?_, hf, ?_⟩
  · rw [he] at hk; cases hk
  · simp [decompressPack, hf]

/-- Witness for C5: the second of two files is unreadable; the call errors
and the sink's stream is not decodable. -/
theorem c5_error_abandons_stream_witness :
    (∃ e, (compress_files beOk fsEx ["a", "zzz"] optsEx).outcome =
      .ioError e) ∧
    (∀ k, (compress_files beOk fsEx ["a", "zzz"] optsEx).outcome ≠
      .success k) ∧
    (compress_files beOk fsEx ["a", "zzz"] optsEx).finished = false ∧
    decompressPack (compress_files beOk fsEx ["a", "zzz"] optsEx) = none :=
  c5_error_abandons_stream (by decide) (by decide)

/-- C8: `num_workers = 0` fails the `assert!` before the encoder is
created — no file is opened, nothing is written, no checkpoint is issued —
and with `num_workers ≥ 1` the assertion branch is unreachable: no run
panics. -/
theorem c8_assert_num_workers (be : Backend) (fs : Fs) (paths : List Path)
    (opts : CompressionOptions) :
    (opts.num_workers = 0 →
      compress_files be fs paths opts =
        { outcome := .panic, checkpoints := [], opens := [], content := [],
          finished := false }) ∧
    (0 < opts.num_workers →
      (compress_files be fs paths opts).outcome ≠ .panic) := by
  constructor
  · intro h0
    rw [compress_files, if_pos h0]
  · intro hw hpanic
    rw [compress_files, if_neg (by omega)] at hpanic
    repeat
      first
      | cases hpanic
      | split at hpanic

/-- Witness for C8: with 0 workers the call panics without side effects;
with 4 workers it does not panic. -/
theorem c8_assert_num_workers_witness :
    compress_files beOk fsEx ["a"] ⟨3, 27, 0⟩ =
      { outcome := .panic, checkpoints := [], opens := [], content := [],
        finished := false } ∧
    (compress_files beOk fsEx ["a"] optsEx).outcome ≠ .panic :=
  ⟨(c8_assert_num_workers beOk fsEx ["a"] ⟨3, 27, 0⟩).1 rfl,
   (c8_assert_num_workers beOk fsEx ["a"] optsEx).2 (by decide)⟩

/-- C9: the terminal `(n, Some 0)` checkpoint is issued strictly before
`encoder.finish()`: when every file is read and written cleanly but the
finalize step fails, the call returns an I/O error, yet the Progress Sink
has already observed the full checkpoint trace ending in `(n, Some 0)` —
so the terminal checkpoint does not imply the call succeeded. -/
theorem c9_terminal_checkpoint_before_finish {be : Backend} {fs : Fs}
    {paths : List Path} {opts : CompressionOptions}
    (hw : 0 < opts.num_workers) (hparams : paramsOk be opts = true)
    (hfiles : ∀ p ∈ paths, fileOk be fs p = true)
    (hfin : be.finishOk = false) :
    (compress_files be fs paths opts).outcome = .ioError .finishError ∧
    (compress_files be fs paths opts).checkpoints.getLast? =
      some (paths.length, some 0) ∧
    (compress_files be fs paths opts).checkpoints =
      (List.range paths.length).map
        (fun i => (i, some (paths.length - i))) ++
      [(paths.length, some 0)] ∧
    (compress_files be fs paths opts).finished = false := by
  rw [compress_files_eq_of_noFinish hw hparams hfiles hfin]
  exact ⟨rfl, List.getLast?_concat _, rfl, rfl⟩

/-- Witness for C9: two readable files, a backend whose `finish` fails. -/
theorem c9_terminal_checkpoint_before_finish_witness :
    (compress_files beNoFinish fsEx ["a", "b"] optsEx).outcome =
      .ioError .finishError ∧
    (compress_files beNoFinish fsEx ["a", "b"] optsEx).checkpoints.getLast?
      = some ((["a", "b"] : List Path).length, some 0) ∧
    (compress_files beNoFinish fsEx ["a", "b"] optsEx).checkpoints =
      (List.range (["a", "b"] : List Path).length).map
        (fun i => (i, some ((["a", "b"] : List Path).length - i))) ++
      [((["a", "b"] : List Path).length, some 0)] ∧
    (compress_files beNoFinish fsEx ["a", "b"] optsEx).finished = false :=
  c9_terminal_checkpoint_before_finish (by decide) (by decide)
    (by decide) (by decide)

/-- C10: on the empty input list (with the assert passing and the backend
accepting the configuration and the finish step), `compress_files`
succeeds with 0 processed bytes, issues exactly one checkpoint
`(0, Some 0)`, opens no file, and finalizes the encoder, leaving a valid
pack that decompresses to the empty byte string. -/
theorem c10_empty_input {be : Backend} {fs : Fs} {opts : CompressionOptions}
    (hw : 0 < opts.num_workers) (hparams : paramsOk be opts = true)
    (hfin : be.finishOk = true) :
    compress_files be fs [] opts =
      { outcome := .success 0, checkpoints := [(0, some 0)], opens := [],
        content := [], finished := true } ∧
    decompressPack (compress_files be fs [] opts) = some [] := by
  rw [compress_files_eq_of_ok hw hparams (by simp) hfin]
  constructor
  · simp
  · simp [decompressPack]

/-- Witness for C10 with the all-accepting backend. -/
theorem c10_empty_input_witness :
    compress_files beOk fsEx [] optsEx =
      { outcome := .success 0, checkpoints := [(0, some 0)], opens := [],
        content := [], finished := true } ∧
    decompressPack (compress_files beOk fsEx [] optsEx) = some [] :=
  c10_empty_input (by decide) (by decide) (by decide)

end Elfshaker
